import Mathlib

/-!
Verification of the npm import-resolution and caching module (`src/npm.ts`)
of the observable-framework repository.

JavaScript strings are modelled as lists of characters (`JStr`); the inputs
relevant to the claims are ASCII, so UTF-16 index arithmetic coincides with
character indices. Filesystem and network effects are modelled by explicit
state passing (`St`) and oracle environments (`Env`); external collaborators
that the specification places out of scope (the acorn parser and AST walk,
the semver engine, the text-splice utility, HTTP and filesystem primitives)
are modelled at their interface, as the specification describes them.
-/

/-- A JavaScript string, modelled as a list of characters. -/
abbrev JStr := List Char

namespace Npm

/-- JS `s.split(sep)` for a single-character separator: always returns a
nonempty list; the empty string splits to `[""]`. -/
def jsSplit (sep : Char) : JStr → List JStr
  | [] => [[]]
  | c :: r =>
    if c = sep then [] :: jsSplit sep r
    else
      match jsSplit sep r with
      | [] => [[c]]
      | p :: ps => (c :: p) :: ps

/-- `parts.join(sep)` for a single-character separator. -/
def joinSep (sep : Char) : List JStr → JStr
  | [] => []
  | [x] => x
  | x :: xs => x ++ sep :: joinSep sep xs

/-- JS `s.indexOf(c, 1)`: the index of the first occurrence of `c` in `s` at
position at least 1, or `none` (JS `-1`). -/
def jsIndexOfFromOne (c : Char) (s : JStr) : Option Nat :=
  match s with
  | [] => none
  | _ :: r => (r.findIdx? (· = c)).map (· + 1)

/-- The value interpolated by a JS template literal for a possibly-undefined
string: `undefined` prints as the text `undefined`. -/
def optJs : Option JStr → JStr
  | some s => s
  | none => "undefined".toList

/-- The `NpmSpecifier` record of `src/npm.ts`: `range` and `path` are
optional fields (`undefined` is `none`). -/
structure NpmSpecifier where
  name : JStr
  range : Option JStr := none
  path : Option JStr := none
deriving Repr, DecidableEq

/-- `parseNpmSpecifier` (src/npm.ts lines 23-32): split on `/`; if the text
starts with `@` the first two slash-segments (joined back with `/`) form the
name-range segment, else the first segment does; a range is delimited by the
first `@` at index at least 1; the remaining segments, rejoined with `/`,
form the path. When a scoped specifier has no second segment, the second
`parts.shift()!` yields `undefined`, which `Array.prototype.join` renders as
the empty string, so the name-range segment becomes the input followed by a
slash. -/
def splitNameRange (specifier : JStr) (parts : List JStr) : JStr × List JStr :=
  if specifier.head? = some '@' then
    match parts with
    | p0 :: p1 :: r => (p0 ++ '/' :: p1, r)
    | [p0] => (p0 ++ ['/'], [])
    | [] => (['/'], [])
  else
    match parts with
    | p0 :: r => (p0, r)
    | [] => ([], [])

def mkNpmSpecifier (namerange : JStr) (rest : List JStr) : NpmSpecifier :=
  match jsIndexOfFromOne '@' namerange with
  | some i =>
    { name := namerange.take i
      range := some (namerange.drop (i + 1))
      path := if rest.isEmpty then none else some (joinSep '/' rest) }
  | none =>
    { name := namerange
      range := none
      path := if rest.isEmpty then none else some (joinSep '/' rest) }

def parseNpmSpecifier (specifier : JStr) : NpmSpecifier :=
  mkNpmSpecifier (splitNameRange specifier (jsSplit '/' specifier)).1
    (splitNameRange specifier (jsSplit '/' specifier)).2

/-- `formatNpmSpecifier` (src/npm.ts lines 34-36): template literal
`name[@range][/path]`; the range and path segments are emitted only when the
field is truthy in JS, i.e. defined and nonempty. -/
def formatNpmSpecifier (s : NpmSpecifier) : JStr :=
  s.name
    ++ (match s.range with
        | some r => if r.isEmpty then [] else '@' :: r
        | none => [])
    ++ (match s.path with
        | some p => if p.isEmpty then [] else '/' :: p
        | none => [])

/-- `resolveNpmSpecifier` (src/npm.ts lines 281-283):
`path.replace(/^\/_npm\//, "").replace(/\/\+esm\.js$/, "/+esm")`. -/
def resolveNpmSpecifier (path : JStr) : JStr :=
  let p1 := if ("/_npm/".toList).isPrefixOf path then path.drop 6 else path
  if ("/+esm.js".toList).isSuffixOf p1 then p1.take (p1.length - 8) ++ "/+esm".toList else p1

/-- Drop the leading run of decimal digits. -/
def dropDigits : JStr → JStr
  | [] => []
  | c :: r => if c.isDigit then dropDigits r else c :: r

/-- Consume one-or-more decimal digits (`\d+`); `none` if the first character
is not a digit. -/
def chompDigits : JStr → Option JStr
  | [] => none
  | c :: r => if c.isDigit then some (dropDigits r) else none

/-- JS line terminators (LF, CR, LS, PS), which `.` does not match and after
which a multiline `^` matches. -/
def isLineTerm (c : Char) : Bool :=
  c = '\n' || c = '\r' || c = Char.ofNat 0x2028 || c = Char.ofNat 0x2029

/-- The exact-version test of `resolveNpmVersion` (src/npm.ts line 214):
`/^\d+\.\d+\.\d+([-+].*)?$/.test(range)`. Without the `s` flag `.` excludes
line terminators and without `m` the `$` anchor matches only at the very
end, so the optional pre-release or build suffix may not contain a line
terminator. -/
def isExactVersion (s : JStr) : Bool :=
  match chompDigits s with
  | some ('.' :: r1) =>
    match chompDigits r1 with
    | some ('.' :: r2) =>
      match chompDigits r2 with
      | some [] => true
      | some (c :: r3) => (c = '-' || c = '+') && r3.all (fun d => !isLineTerm d)
      | none => false
    | _ => false
  | _ => false

/-- A string-literal node of the parsed program, as produced by the external
acorn parser: `start`/`stop` are the source offsets of the literal including
its quotes (acorn's `start`/`end`), and `value` its decoded string value
(`getStringLiteralValue`). `rewriteNpmImports` and `getDependencyResolver`
visit exactly the string literals in import-declaration, export-from,
dynamic-import and `import.meta.resolve` argument position; the traversal
itself is an external collaborator, so a parsed module is represented by the
list of these literals in source order. -/
structure StringLit where
  start : Nat
  stop : Nat
  value : JStr
deriving Repr, DecidableEq

/-- One recorded replacement of `Sourcemap.replaceLeft`. -/
structure Edit where
  start : Nat
  stop : Nat
  insert : JStr
deriving Repr, DecidableEq

def hexDigitChar (n : Nat) : Char :=
  if n < 10 then Char.ofNat (48 + n) else Char.ofNat (87 + n)

/-- The escaping `JSON.stringify` applies to one character of a string. -/
def jsonEscapeChar (c : Char) : JStr :=
  if c = '"' then ['\\', '"']
  else if c = '\\' then ['\\', '\\']
  else if c = Char.ofNat 8 then ['\\', 'b']
  else if c = '\t' then ['\\', 't']
  else if c = '\n' then ['\\', 'n']
  else if c = Char.ofNat 12 then ['\\', 'f']
  else if c = '\r' then ['\\', 'r']
  else if c.toNat < 32 then
    '\\' :: 'u' :: [hexDigitChar (c.toNat / 4096 % 16), hexDigitChar (c.toNat / 256 % 16),
      hexDigitChar (c.toNat / 16 % 16), hexDigitChar (c.toNat % 16)]
  else [c]

/-- `JSON.stringify` on a string value: the JSON-quoted form. -/
def jsonStringify (s : JStr) : JStr :=
  '"' :: (s.map jsonEscapeChar).flatten ++ ['"']

def sourceMapMarker : JStr := "//# sourceMappingURL=".toList

/-- Consume the rest of the matched line: `.*$\n?` takes everything up to
the next line terminator and also a following `\n` (only `\n`, since the
regex spells it literally). -/
def dropSourceMapLine : JStr → JStr
  | [] => []
  | c :: r => if c = '\n' then r else if isLineTerm c then c :: r else dropSourceMapLine r

/-- Scanner for `String.replace(/^\/\/# sourceMappingURL=.*$\n?/m, "")`:
the first line (multiline `^`: at offset 0 or after a line terminator) that
begins with the marker is removed up to and including its newline; the rest
of the text is kept verbatim, and only the first match is replaced. -/
def stripSourceMapAux : Bool → JStr → JStr
  | _, [] => []
  | atStart, c :: r =>
    if atStart && sourceMapMarker.isPrefixOf (c :: r) then dropSourceMapLine (c :: r)
    else c :: stripSourceMapAux (isLineTerm c) r

def stripSourceMapComment (s : JStr) : JStr := stripSourceMapAux true s

/-- Modelled from the spec: the text-splice utility (`Sourcemap`) is an
external collaborator, "an ordered list of explicit
(startOffset, endOffset, replacementText) edits applied as a single pass
over the original text". `pos` is the cursor into the original text; the
edits are expected in source order with disjoint ranges, as produced by the
AST walk. -/
def applyEditsFrom (input : JStr) : Nat → List Edit → JStr
  | pos, [] => input.drop pos
  | pos, e :: es => (input.drop pos).take (e.start - pos) ++ e.insert ++
      applyEditsFrom input e.stop es

/-- The edits recorded by `rewriteImportSource` (src/npm.ts lines 63-67):
for each visited literal, if `resolve(value)` differs from the value, the
literal's source range is replaced by `JSON.stringify` of the resolved
value. -/
def rewriteEdits (resolve : JStr → JStr) : List StringLit → List Edit
  | [] => []
  | l :: ls =>
    if resolve l.value = l.value then rewriteEdits resolve ls
    else ⟨l.start, l.stop, jsonStringify (resolve l.value)⟩ :: rewriteEdits resolve ls

/-- `rewriteNpmImports` (src/npm.ts lines 39-71): apply the recorded
replacements to the input, then strip a `//# sourceMappingURL=` comment
line. `lits` is the list of import-source string literals found by the
external parse/walk of the input. -/
def rewriteNpmImports (input : JStr) (lits : List StringLit) (resolve : JStr → JStr) : JStr :=
  stripSourceMapComment (applyEditsFrom input 0 (rewriteEdits resolve lits))

/-- `s.take a ++ ins ++ s.drop b`: replace the range `[a, b)` of `s`. -/
def replaceRange (s : JStr) (a b : Nat) (ins : JStr) : JStr :=
  s.take a ++ ins ++ s.drop b

/-- The specification-side description of the rewrite (spec 4.2): in the
input, exactly those visited literals whose resolution differs are replaced
by the JSON-quoted resolved value, each within its own source range, all
other bytes untouched. Later literals are replaced first so that every
replacement happens at the literal's original offsets. To be proved
equivalent to the single-pass `applyEditsFrom` translation of the code. -/
def specRewrite (input : JStr) (resolve : JStr → JStr) : List StringLit → JStr
  | [] => input
  | l :: ls =>
    if resolve l.value = l.value then specRewrite input resolve ls
    else replaceRange (specRewrite input resolve ls) l.start l.stop
      (jsonStringify (resolve l.value))

/-- Well-formedness of the literal list of a successfully parsed module:
offsets are in bounds, each literal's range is ordered, and the ranges are
pairwise disjoint and listed in source order, starting at or after `pos`. -/
def litsWF (len : Nat) : Nat → List StringLit → Bool
  | _, [] => true
  | pos, l :: ls =>
    decide (pos ≤ l.start) && decide (l.start ≤ l.stop) && decide (l.stop ≤ len) &&
      litsWF len l.stop ls

/-- The manifest fields `getDependencyResolver` consumes from a fetched
`package.json`, each a map from dependency name to declared range. -/
structure Pkg where
  dependencies : List (JStr × JStr)
  devDependencies : List (JStr × JStr)
  peerDependencies : List (JStr × JStr)
deriving Repr, DecidableEq

/-- `Map.get` / object-property lookup over an association list. -/
def lookupStr {α : Type} : List (JStr × α) → JStr → Option α
  | [], _ => none
  | (k', v) :: r, k => if k' = k then some v else lookupStr r k

/-- `Map.set`: replace the value at an existing key in place, else append. -/
def setStr {α : Type} : List (JStr × α) → JStr → α → List (JStr × α)
  | [], k, v => [(k, v)]
  | (k', v') :: r, k, v => if k' = k then (k, v) :: r else (k', v') :: setStr r k v

/-- Outcome of a request to the CDN metadata endpoint, as observed by
`resolveNpmVersion`: `notOk` for a non-success status, otherwise the
optional `version` field of the JSON body. -/
inductive RemoteResult where
  | notOk
  | result (version : Option JStr)
deriving Repr, DecidableEq

/-- A successful response of the CDN file endpoint: its `content-type`
header (JS renders an absent header as the text `null`) and its body. -/
structure FetchResponse where
  contentType : JStr
  body : JStr
deriving Repr, DecidableEq

/-- Modelled from the spec: the external collaborators of `src/npm.ts`,
specified only at their interface (spec section 1): `fetch` is the CDN file
endpoint (`none` for a non-success response); `remote` the CDN metadata
endpoint; `satisfies`/`rsort` the external semver engine; `parseLits` the
acorn parse plus AST walk, yielding the import-source string literals of a
module in source order (`none` for a parse error); `parseJson` is
`JSON.parse` restricted to the manifest fields consumed (`none` when the
text is not valid JSON); `initCache` is the resolved value of the lazy,
once-per-process version-index initialization (`npmVersionCache ??=
initializeNpmVersionCache(root)`), whose error paths are modelled
separately by `initNpmVersionCache`. -/
structure Env where
  fetch : JStr → Option FetchResponse
  remote : JStr → RemoteResult
  satisfies : JStr → JStr → Bool
  rsort : List JStr → List JStr
  parseLits : JStr → Option (List StringLit)
  parseJson : JStr → Option Pkg
  initCache : List (JStr × List JStr)

deriving instance DecidableEq for Except

/-- The mutable state threaded through the module: the on-disk files (path
to content) and directories, the two coalescing registries (modelled as
maps from key to the settled outcome a pending in-flight operation will
deliver), and the in-memory version index. -/
structure St where
  files : List (JStr × JStr)
  dirs : List JStr
  npmRequests : List (JStr × Except JStr JStr)
  versionCache : Option (List (JStr × List JStr))
  npmVersionRequests : List (JStr × Except JStr JStr)
deriving Repr, DecidableEq

def existsSyncFile (st : St) (p : JStr) : Bool := (lookupStr st.files p).isSome

def existsSyncDir (st : St) (p : JStr) : Bool := st.dirs.contains p

def addDir (dirs : List JStr) (d : JStr) : List JStr :=
  if dirs.contains d then dirs else dirs ++ [d]

/-- `join(root, ".observablehq", "cache", path)` for a `path` starting with
`/` and a root without a trailing slash: posix join collapses the doubled
separator. -/
def cacheFilePath (root path : JStr) : JStr :=
  root ++ "/.observablehq/cache".toList ++ path

/-- `join(root, ".observablehq", "cache", "_npm")`. -/
def npmCacheDir (root : JStr) : JStr :=
  root ++ "/.observablehq/cache/_npm".toList

/-- Posix `dirname`. -/
def dirname (p : JStr) : JStr :=
  match p.reverse.dropWhile (· ≠ '/') with
  | [] => ['.']
  | _ :: rest => if rest.isEmpty then ['/'] else rest.reverse

/-- The CDN metadata URL of `resolveNpmVersion` (src/npm.ts line 218):
`https://data.jsdelivr.com/v1/packages/npm/NAME/resolved?specifier=RANGE`,
with the query string only for a truthy range. -/
def versionResolveUrl (name : JStr) (range : Option JStr) : JStr :=
  "https://data.jsdelivr.com/v1/packages/npm/".toList ++ name ++ "/resolved".toList ++
    (match range with
     | some r => "?specifier=".toList ++ r
     | none => [])

/-- JS truthiness of an optional string: an absent or empty range is falsy
everywhere `resolveNpmVersion` tests it. -/
def jsRange : Option JStr → Option JStr
  | some x => if x.isEmpty then none else some x
  | none => none

/-- The scan condition of `resolveNpmVersion` (src/npm.ts line 217):
`!range || satisfies(version, range)`. -/
def satisfiesRange (env : Env) (range : Option JStr) (v : JStr) : Bool :=
  match range with
  | none => true
  | some r => env.satisfies v r

/-- The tail of `resolveNpmVersion` (src/npm.ts lines 215-235) after the
exact-version early return: lazy version-index initialization, descending
scan of the cached versions, then the coalesced remote lookup. The third
component counts outbound network requests. -/
def resolveNpmVersionCont (env : Env) (root name : JStr) (range : Option JStr) (st : St) :
    Except JStr JStr × St × Nat :=
  let cache := match st.versionCache with
    | some c => c
    | none => env.initCache
  let st1 : St := { st with versionCache := some cache }
  let versions := lookupStr cache name
  let found := match versions with
    | some vs => vs.find? (satisfiesRange env range)
    | none => none
  match found with
  | some v => (.ok v, st1, 0)
  | none =>
    let href := versionResolveUrl name range
    match lookupStr st1.npmVersionRequests href with
    | some outcome => (outcome, st1, 0)
    | none =>
      match env.remote href with
      | .notOk => (.error ("unable to fetch: ".toList ++ href), st1, 1)
      | .result vOpt =>
        match jsRange vOpt with
        | none => (.error ("unable to resolve version: ".toList
            ++ formatNpmSpecifier ⟨name, range, none⟩), st1, 1)
        | some v =>
          let spec := formatNpmSpecifier ⟨name, some v, none⟩
          let newVersions := match versions with
            | some vs => env.rsort (vs ++ [v])
            | none => [v]
          let st2 : St := { st1 with
            versionCache := some (setStr cache name newVersions)
            dirs := addDir st1.dirs (npmCacheDir root ++ '/' :: spec) }
          (.ok v, st2, 1)

/-- `resolveNpmVersion` (src/npm.ts lines 212-236): an exact version range
returns immediately, before the version index is touched. -/
def resolveNpmVersion (env : Env) (root : JStr) (spec : NpmSpecifier) (st : St) :
    Except JStr JStr × St × Nat :=
  match jsRange spec.range with
  | some r =>
    if isExactVersion r then (.ok r, st, 0)
    else resolveNpmVersionCont env root spec.name (some r) st
  | none => resolveNpmVersionCont env root spec.name none st

/-- The range default of `resolveNpmImport` (src/npm.ts lines 241-245),
applied only when the parsed specifier has no range. -/
def resolveNpmImportRange (s : NpmSpecifier) : Option JStr :=
  match s.range with
  | some r => some r
  | none =>
    if s.name = "@duckdb/duckdb-wasm".toList then some ("1.28.0".toList)
    else if s.name = "parquet-wasm".toList then some ("0.5.0".toList)
    else none

/-- The path default of `resolveNpmImport` (src/npm.ts lines 246-250). -/
def resolveNpmImportPath (s : NpmSpecifier) : JStr :=
  match s.path with
  | some p => p
  | none =>
    if s.name = "mermaid".toList then "dist/mermaid.esm.min.mjs/+esm".toList
    else if s.name = "echarts".toList then "dist/echarts.esm.min.js".toList
    else "+esm".toList

/-- `path.replace(/\+esm$/, "+esm.js")`: append `.js` to a trailing
`+esm`. -/
def jsReplaceEsmSuffix (p : JStr) : JStr :=
  if ("+esm".toList).isSuffixOf p then p ++ ".js".toList else p

/-- `resolveNpmImport` (src/npm.ts lines 238-253): parse the request
specifier, apply the package-specific range and path defaults, resolve the
version, and build the `/_npm/name@version/path` cache path. -/
def resolveNpmImport (env : Env) (root : JStr) (specifier : JStr) (st : St) :
    Except JStr JStr × St × Nat :=
  let s := parseNpmSpecifier specifier
  match resolveNpmVersion env root ⟨s.name, resolveNpmImportRange s, none⟩ st with
  | (.ok v, st', n) =>
    (.ok ("/_npm/".toList ++ s.name ++ '@' :: v ++ '/'
        :: jsReplaceEsmSuffix (resolveNpmImportPath s)), st', n)
  | (.error e, st', n) => (.error e, st', n)

/-- `Set.add`: append if not already present. -/
def jsSetAdd (l : List JStr) (x : JStr) : List JStr :=
  if l.contains x then l else l ++ [x]

/-- `findImportSource` (src/npm.ts lines 142-150): a literal value is added
to the dependency set when it starts with `/npm/`, its parsed package name
differs from the module's own name, and its `name@range` cache directory
does not already exist (a `range` of `undefined` interpolates as the text
`undefined`). -/
def findImportSourceStep (st : St) (root name : JStr) (deps : List JStr) (value : JStr) :
    List JStr :=
  if ("/npm/".toList).isPrefixOf value then
    if (parseNpmSpecifier (value.drop 5)).name = name then deps
    else if existsSyncDir st (npmCacheDir root ++ '/'
        :: ((parseNpmSpecifier (value.drop 5)).name ++ '@'
          :: optJs (parseNpmSpecifier (value.drop 5)).range)) then deps
    else jsSetAdd deps value
  else deps

/-- The dependency set collected by the AST walk of
`getDependencyResolver`, over the module's import-source literal values in
source order. -/
def findImportSources (st : St) (root name : JStr) (values : List JStr) : List JStr :=
  values.foldl (findImportSourceStep st root name) []

/-- The range selection of `getDependencyResolver` (src/npm.ts lines
161-166): the fixed override table takes precedence over the manifest's
`dependencies`, `devDependencies` and `peerDependencies`, in that order. -/
def dependencyRange (name depName : JStr) (pkg : Pkg) : Option JStr :=
  if (name = "arquero".toList ∨ name = "@uwdata/mosaic-core".toList
      ∨ name = "@duckdb/duckdb-wasm".toList) ∧ depName = "apache-arrow".toList then
    some ("latest".toList)
  else if name = "@uwdata/mosaic-core".toList ∧ depName = "@duckdb/duckdb-wasm".toList then
    some ("1.28.0".toList)
  else
    match lookupStr pkg.dependencies depName with
    | some r => some r
    | none =>
      match lookupStr pkg.devDependencies depName with
      | some r => some r
      | none => lookupStr pkg.peerDependencies depName

/-- The substitution step of the resolver closure returned by
`getDependencyResolver` (src/npm.ts lines 174-175), before
relativization: a specifier in the resolution map is replaced by its
resolved cache path; otherwise the `/npm/` prefix is swapped for `/_npm/`,
with `.js` appended to a `/+esm` export-map suffix. -/
def dependencyResolverSubstitute (resolutions : List (JStr × JStr)) (specifier : JStr) : JStr :=
  match lookupStr resolutions specifier with
  | some r => r
  | none =>
    "/_npm/".toList ++ specifier.drop 5 ++
      (if ("/+esm".toList).isSuffixOf specifier then ".js".toList else [])

/-- Length of the common prefix of two segment lists. -/
def commonLen : List JStr → List JStr → Nat
  | a :: as, b :: bs => if a = b then commonLen as bs + 1 else 0
  | _, _ => 0

/-- Modelled from the spec: `relativePath` of `src/path.ts` is not under
`src/`; the spec says the resolver "converts the result to a path relative
to the requesting module's own cache path (so served files are
self-contained and relocatable)". Both arguments are root-relative paths
starting with `/`. -/
def relativePath (source target : JStr) : JStr :=
  let fromDirs := ((jsSplit '/' source).drop 1).dropLast
  let toParts := (jsSplit '/' target).drop 1
  let m := commonLen fromDirs toParts
  let ups := fromDirs.length - m
  if ups = 0 then "./".toList ++ joinSep '/' (toParts.drop m)
  else joinSep '/' (List.replicate ups ("..".toList) ++ toParts.drop m)

/-- The resolver closure returned by `getDependencyResolver` (src/npm.ts
lines 172-177): specifiers without the `/npm/` request prefix pass through
unchanged; all others are substituted and then relativized against the
module's own cache path. -/
def dependencyResolverFn (path : JStr) (resolutions : List (JStr × JStr)) (specifier : JStr) :
    JStr :=
  if ¬("/npm/".toList).isPrefixOf specifier then specifier
  else relativePath path (dependencyResolverSubstitute resolutions specifier)

/-- `/^application\/javascript(;|$)/i.test(contentType)` (src/npm.ts line
90). -/
def contentTypeIsJs (ct : JStr) : Bool :=
  let t := ct.map Char.toLower
  ("application/javascript".toList).isPrefixOf t &&
    ((t.drop 22).isEmpty || (t.drop 22).head? = some ';')

/-- The dependency-resolution loop of `getDependencyResolver` (src/npm.ts
lines 159-169): for each dependency with a determined range, resolve
`depName@range/depPath` to a cache path and record it in the resolution
map; a dependency with no range is skipped. -/
def resolveDependencies (env : Env) (root name : JStr) (pkg : Pkg) :
    List JStr → St → Except JStr (List (JStr × JStr)) × St × Nat
  | [], st => (.ok [], st, 0)
  | dep :: rest, st =>
    let d := parseNpmSpecifier (dep.drop 5)
    let depPath := match d.path with
      | some p => p
      | none => "+esm".toList
    match dependencyRange name d.name pkg with
    | none => resolveDependencies env root name pkg rest st
    | some range =>
      match resolveNpmImport env root (d.name ++ '@' :: range ++ '/' :: depPath) st with
      | (.ok p, st1, n) =>
        match resolveDependencies env root name pkg rest st1 with
        | (.ok resolutions, st2, n') => (.ok ((dep, p) :: resolutions), st2, n + n')
        | (.error e, st2, n') => (.error e, st2, n + n')
      | (.error e, st1, n) => (.error e, st1, n)

mutual

/-- `populateNpmCache` (src/npm.ts lines 76-102): reject paths outside
`/_npm/`; return immediately when the cache file exists; share the outcome
of an in-flight request for the same path; otherwise fetch from the CDN,
and for JavaScript content obtain the dependency resolver and rewrite
before persisting, else persist the body unmodified. The returned resolver
data of `getDependencyResolver` is its resolution map; the closure it
denotes is `dependencyResolverFn path resolutions`. The `fuel` bounds the
recursion between the two functions (in JS, unbounded re-entry instead
deadlocks on the request registry); no claim depends on exhaustion. -/
def populateNpmCache (fuel : Nat) (env : Env) (root path : JStr) (st : St) :
    Except JStr JStr × St × Nat :=
  if ¬("/_npm/".toList).isPrefixOf path then
    (.error ("invalid npm path: ".toList ++ path), st, 0)
  else
    let filePath := cacheFilePath root path
    if existsSyncFile st filePath then (.ok filePath, st, 0)
    else
      match lookupStr st.npmRequests path with
      | some outcome => (outcome, st, 0)
      | none =>
        let href := "https://cdn.jsdelivr.net/npm/".toList ++ resolveNpmSpecifier path
        match env.fetch href with
        | none => (.error ("unable to fetch: ".toList ++ href), st, 1)
        | some resp =>
          let st1 : St := { st with dirs := addDir st.dirs (dirname filePath) }
          if contentTypeIsJs resp.contentType then
            match fuel with
            | 0 => (.error ("recursion limit".toList), st1, 1)
            | fuel' + 1 =>
              match getDependencyResolver fuel' env root path resp.body st1 with
              | (.error e, st2, n) => (.error e, st2, n + 1)
              | (.ok resolutions, st2, n) =>
                match env.parseLits resp.body with
                | none => (.error ("parse error".toList), st2, n + 1)
                | some lits =>
                  let out := rewriteNpmImports resp.body lits
                    (dependencyResolverFn path resolutions)
                  (.ok filePath, { st2 with files := st2.files ++ [(filePath, out)] }, n + 1)
          else
            (.ok filePath, { st1 with files := st1.files ++ [(filePath, resp.body)] }, 1)

/-- `getDependencyResolver` (src/npm.ts lines 113-178), returning the
resolution map of the resolver closure: parse the module, collect its
dependency set, and if it is nonempty load the module's own `package.json`
through the cache and resolve each dependency with the selected range. -/
def getDependencyResolver (fuel : Nat) (env : Env) (root path input : JStr) (st : St) :
    Except JStr (List (JStr × JStr)) × St × Nat :=
  match env.parseLits input with
  | none => (.error ("parse error".toList), st, 0)
  | some lits =>
    let s := parseNpmSpecifier (resolveNpmSpecifier path)
    let dependencies := findImportSources st root s.name (lits.map (·.value))
    if dependencies.isEmpty then (.ok [], st, 0)
    else
      match fuel with
      | 0 => (.error ("recursion limit".toList), st, 0)
      | fuel' + 1 =>
        match populateNpmCache fuel' env root
            ("/_npm/".toList ++ s.name ++ '@' :: optJs s.range ++ "/package.json".toList) st with
        | (.error e, st1, n) => (.error e, st1, n)
        | (.ok pkgPath, st1, n) =>
          match lookupStr st1.files pkgPath with
          | none => (.error ("unable to read package.json".toList), st1, n)
          | some content =>
            match env.parseJson content with
            | none => (.error ("invalid package.json".toList), st1, n)
            | some pkg =>
              match resolveDependencies env root s.name pkg dependencies st1 with
              | (.ok resolutions, st2, n') => (.ok resolutions, st2, n + n')
              | (.error e, st2, n') => (.error e, st2, n + n')

end

/-- A filesystem error as distinguished by `isEnoent` of `src/error.js` (an
external collaborator): either `ENOENT` or anything else. -/
inductive FsError where
  | enoent
  | otherErr (msg : JStr)
deriving Repr, DecidableEq

/-- Modelled from the spec: the filesystem interface of
`initializeNpmVersionCache` — `readdir` lists a directory or fails, and
`rsort` is the external semver engine's descending sort. -/
structure FsEnv where
  readdir : JStr → Except FsError (List JStr)
  rsort : List JStr → List JStr

/-- Append a version to a package's list in the index under construction
(`versions.push(range!)`, with a fresh singleton list for a new name). -/
def cacheAdd (cache : List (JStr × List JStr)) (name v : JStr) : List (JStr × List JStr) :=
  match lookupStr cache name with
  | some vs => setStr cache name (vs ++ [v])
  | none => cache ++ [(name, [v])]

def initEntryAdd (cache : List (JStr × List JStr)) (spec : JStr) : List (JStr × List JStr) :=
  let s := parseNpmSpecifier spec
  cacheAdd cache s.name (optJs s.range)

/-- The entry loop of `initializeNpmVersionCache` (src/npm.ts lines
186-200): scoped entries are listed one level deeper; a failing `readdir`
aborts the loop with the partially built index, mirroring the mutable
`cache` under the `try`. -/
def initLoop (fs : FsEnv) (cacheDir : JStr) :
    List JStr → List (JStr × List JStr) → List (JStr × List JStr) × Option FsError
  | [], cache => (cache, none)
  | e :: rest, cache =>
    if e.head? = some '@' then
      match fs.readdir (cacheDir ++ '/' :: e) with
      | .error err => (cache, some err)
      | .ok subs =>
        initLoop fs cacheDir rest (subs.foldl (fun c sub => initEntryAdd c (e ++ '/' :: sub)) cache)
    else initLoop fs cacheDir rest (initEntryAdd cache e)

/-- `initializeNpmVersionCache` (src/npm.ts lines 182-208): scan the cache
directory tree, swallowing only `ENOENT` (`if (!isEnoent(error)) throw`),
then sort each package's versions descending. -/
def initNpmVersionCache (fs : FsEnv) (root : JStr) :
    Except FsError (List (JStr × List JStr)) :=
  let res := match fs.readdir (npmCacheDir root) with
    | .error err => (([] : List (JStr × List JStr)), some err)
    | .ok entries => initLoop fs (npmCacheDir root) entries []
  match res.2 with
  | some err =>
    if err = .enoent then .ok (res.1.map (fun kv => (kv.1, fs.rsort kv.2)))
    else .error err
  | none => .ok (res.1.map (fun kv => (kv.1, fs.rsort kv.2)))

/-- Invariant of a version index: every version it lists is exact (never a
range). The index is built from `name@version` cache directory names and
extended with remotely resolved versions. -/
def exactCache (c : List (JStr × List JStr)) : Prop :=
  ∀ nm vs, lookupStr c nm = some vs → ∀ v ∈ vs, isExactVersion v = true

/-- An inert environment for concrete instantiations: every external
operation fails or is empty. -/
def trivialEnv : Env :=
  { fetch := fun _ => none
    remote := fun _ => .notOk
    satisfies := fun _ _ => false
    rsort := fun l => l
    parseLits := fun _ => none
    parseJson := fun _ => none
    initCache := [] }

/-- An environment whose metadata endpoint always resolves to `9.9.9`. -/
def fixedVersionEnv : Env :=
  { trivialEnv with remote := fun _ => .result (some ("9.9.9".toList)) }

/-- The empty state: nothing on disk, no pending requests, version index
not yet initialized. -/
def emptySt : St := ⟨[], [], [], none, []⟩

/-! Concrete fixtures for the end-to-end scenarios: a module
`arquero@5.0.0` whose source imports `/npm/apache-arrow@12/+esm` and whose
manifest declares `apache-arrow: "^11.0.0"` (the override scenario), and a
module `mod@1.0.0` importing `/npm/foo@^2/+esm` with an empty manifest (the
fallback prefix-swap). The metadata oracle answers the `latest` query and
the `^11.0.0` query with different versions, so the version appearing in
the produced cache path identifies which range was used. -/

def arrowLit : JStr := "/npm/apache-arrow@12/+esm".toList

def scenarioRoot : JStr := "/proj".toList

def arqueroPath : JStr := "/_npm/arquero@5.0.0/+esm.js".toList

def arqueroPkg : Pkg := ⟨[("apache-arrow".toList, "^11.0.0".toList)], [], []⟩

def arqueroSt : St :=
  ⟨[(cacheFilePath scenarioRoot ("/_npm/arquero@5.0.0/package.json".toList), "PKG".toList)],
    [], [], none, []⟩

def arqueroEnv : Env :=
  { fetch := fun _ => none
    remote := fun h =>
      if h = versionResolveUrl ("apache-arrow".toList) (some ("latest".toList)) then
        .result (some ("16.1.0".toList))
      else if h = versionResolveUrl ("apache-arrow".toList) (some ("^11.0.0".toList)) then
        .result (some ("11.3.0".toList))
      else .notOk
    satisfies := fun _ _ => false
    rsort := fun l => l
    parseLits := fun s => if s = "SRC".toList then some [⟨8, 35, arrowLit⟩] else none
    parseJson := fun s => if s = "PKG".toList then some arqueroPkg else none
    initCache := [] }

def fooLit : JStr := "/npm/foo@^2/+esm".toList

def fooModPath : JStr := "/_npm/mod@1.0.0/+esm.js".toList

def fooModSt : St :=
  ⟨[(cacheFilePath scenarioRoot ("/_npm/mod@1.0.0/package.json".toList), "PKG".toList)],
    [], [], none, []⟩

/-- An environment whose semver oracle accepts every pair. -/
def satEnv : Env :=
  { trivialEnv with satisfies := fun _ _ => true }

/-- A state whose version index already holds `d3@7.8.5`. -/
def cachedSt : St := ⟨[], [], [], some [("d3".toList, ["7.8.5".toList])], []⟩

/-- A state whose disk cache already holds the file for
`/_npm/d3@7.8.5/+esm.js`. -/
def populateSt : St :=
  ⟨[(cacheFilePath scenarioRoot ("/_npm/d3@7.8.5/+esm.js".toList), "JS".toList)],
    [], [], none, []⟩

/-- The state after resolving `d3` remotely to `9.9.9` from `emptySt`. -/
def resolvedSt : St :=
  ⟨[], ["/proj/.observablehq/cache/_npm/d3@9.9.9".toList], [],
    some [("d3".toList, ["9.9.9".toList])], []⟩

/-- A filesystem whose every directory listing fails with `ENOENT`. -/
def enoentFs : FsEnv := ⟨fun _ => .error .enoent, fun l => l⟩

/-- A filesystem whose every directory listing fails with a non-`ENOENT`
error. -/
def failFs : FsEnv := ⟨fun _ => .error (.otherErr ("EACCES".toList)), fun l => l⟩

def fooModEnv : Env :=
  { fetch := fun _ => none
    remote := fun _ => .notOk
    satisfies := fun _ _ => false
    rsort := fun l => l
    parseLits := fun s => if s = "SRC".toList then some [⟨8, 26, fooLit⟩] else none
    parseJson := fun s => if s = "PKG".toList then some ⟨[], [], []⟩ else none
    initCache := [] }

example : parseNpmSpecifier ("@scope/pkg@^1.2.3/dist/x.js".toList) =
    { name := "@scope/pkg".toList, range := some ("^1.2.3".toList),
      path := some ("dist/x.js".toList) } := by decide

example : parseNpmSpecifier ("lodash".toList) = { name := "lodash".toList } := by decide

example : resolveNpmSpecifier ("/_npm/d3@7.8.5/+esm.js".toList) = "d3@7.8.5/+esm".toList := by
  decide

example : isExactVersion ("1.2.3".toList) = true := by decide
example : isExactVersion ("1.22.3-beta.1".toList) = true := by decide
example : isExactVersion ("^1.2.3".toList) = false := by decide
example : isExactVersion ("latest".toList) = false := by decide
example : isExactVersion ("1.2".toList) = false := by decide

example : rewriteNpmImports ("import \"/npm/d3@7/+esm\";const a=\"x\";".toList)
    [⟨7, 23, "/npm/d3@7/+esm".toList⟩]
    (fun s => if s = "/npm/d3@7/+esm".toList then "../d3@7.8.5/+esm.js".toList else s)
    = "import \"../d3@7.8.5/+esm.js\";const a=\"x\";".toList := by decide

example : stripSourceMapComment ("//# sourceMappingURL=a.js.map\nx".toList) = "x".toList := by
  decide

example : stripSourceMapComment ("const a=1;\n//# sourceMappingURL=a.js.map\n".toList)
    = "const a=1;\n".toList := by decide

example : jsonStringify ("a\"b\\c\n".toList) = "\"a\\\"b\\\\c\\n\"".toList := by decide

example : (getDependencyResolver 1 arqueroEnv scenarioRoot arqueroPath ("SRC".toList)
    arqueroSt).1 = .ok [(arrowLit, "/_npm/apache-arrow@16.1.0/+esm.js".toList)] := by decide

example : (getDependencyResolver 1 fooModEnv scenarioRoot fooModPath ("SRC".toList)
    fooModSt).1 = .ok [] := by decide

example : dependencyResolverSubstitute [] fooLit = "/_npm/foo@^2/+esm.js".toList := by decide

/-! Lemmas about splitting and joining, used for the specifier round trip. -/

theorem jsSplit_ne_nil (sep : Char) (s : JStr) : jsSplit sep s ≠ [] := by
  cases s with
  | nil => simp [jsSplit]
  | cons c r =>
    simp only [jsSplit]
    split
    · simp
    · split <;> simp

theorem joinSep_cons_of_ne_nil (sep : Char) (x : JStr) (xs : List JStr) (h : xs ≠ []) :
    joinSep sep (x :: xs) = x ++ sep :: joinSep sep xs := by
  cases xs with
  | nil => exact absurd rfl h
  | cons y ys => rfl

theorem joinSep_jsSplit (sep : Char) (s : JStr) : joinSep sep (jsSplit sep s) = s := by
  induction s with
  | nil => rfl
  | cons c r ih =>
    simp only [jsSplit]
    by_cases hc : c = sep
    · subst hc
      rw [if_pos rfl, joinSep_cons_of_ne_nil c [] _ (jsSplit_ne_nil c r), ih]
      simp
    · simp only [if_neg hc]
      rcases hr : jsSplit sep r with _ | ⟨p, ps⟩
      · exact absurd hr (jsSplit_ne_nil sep r)
      · rw [hr] at ih
        cases ps with
        | nil => simpa [joinSep] using congrArg (c :: ·) ih
        | cons q qs =>
          rw [joinSep_cons_of_ne_nil sep (c :: p) _ (by simp)] at *
          rw [joinSep_cons_of_ne_nil sep p _ (by simp)] at ih
          simpa using congrArg (c :: ·) ih

/-- If the search of `jsIndexOfFromOne` finds `c` at index `i`, the string
decomposes around that occurrence. -/
theorem jsIndexOfFromOne_decomp (c : Char) (s : JStr) (i : Nat)
    (h : jsIndexOfFromOne c s = some i) : s.take i ++ c :: s.drop (i + 1) = s := by
  cases s with
  | nil => simp [jsIndexOfFromOne] at h
  | cons a t =>
    simp only [jsIndexOfFromOne, Option.map_eq_some'] at h
    obtain ⟨j, hj, rfl⟩ := h
    rw [List.findIdx?_eq_some_iff_getElem] at hj
    obtain ⟨hlt, hget, -⟩ := hj
    have : t[j] = c := by simpa using hget
    simp only [List.take_succ_cons, List.drop_succ_cons]
    rw [← this, List.cons_append]
    congr 1
    rw [List.getElem_cons_drop, List.take_append_drop]

/-- Reconstruction of the input from the name-range segment and the path
segments computed by `splitNameRange`, when the path part is nonempty. -/
theorem splitNameRange_reconstruct (s : JStr) (nr : JStr) (rest : List JStr)
    (h : splitNameRange s (jsSplit '/' s) = (nr, rest)) (hne : rest ≠ []) :
    nr ++ '/' :: joinSep '/' rest = s := by
  have hjoin := joinSep_jsSplit '/' s
  rcases hsp : jsSplit '/' s with _ | ⟨p0, ps⟩
  · exact absurd hsp (jsSplit_ne_nil '/' s)
  rw [hsp] at h hjoin
  unfold splitNameRange at h
  by_cases hat : s.head? = some '@'
  · rw [if_pos hat] at h
    cases ps with
    | nil =>
      simp only [Prod.mk.injEq] at h
      exact absurd h.2.symm hne
    | cons p1 rest' =>
      simp only [Prod.mk.injEq] at h
      obtain ⟨h1, h2⟩ := h
      subst h1
      subst h2
      rw [joinSep_cons_of_ne_nil _ _ _ (by simp), joinSep_cons_of_ne_nil _ _ _ hne] at hjoin
      simpa using hjoin
  · rw [if_neg hat] at h
    simp only [Prod.mk.injEq] at h
    obtain ⟨h1, h2⟩ := h
    subst h1
    subst h2
    rw [joinSep_cons_of_ne_nil _ _ _ hne] at hjoin
    exact hjoin

/-- The round trip, in helper form: when parsing yields a defined, nonempty
range and a defined, nonempty path, formatting the parse reproduces the
input exactly. -/
theorem format_parse_of_nonempty (s : JStr) (n r p : JStr)
    (h : parseNpmSpecifier s = ⟨n, some r, some p⟩) (hr : r ≠ []) (hp : p ≠ []) :
    formatNpmSpecifier (parseNpmSpecifier s) = s := by
  rw [h]
  rcases hsplit : splitNameRange s (jsSplit '/' s) with ⟨nr, rest⟩
  have h2 : mkNpmSpecifier nr rest = ⟨n, some r, some p⟩ := by
    rw [← h]
    unfold parseNpmSpecifier
    rw [hsplit]
  unfold mkNpmSpecifier at h2
  rcases hidx : jsIndexOfFromOne '@' nr with _ | i <;> rw [hidx] at h2
  · simp only [NpmSpecifier.mk.injEq] at h2
    exact absurd h2.2.1 (by simp)
  · simp only [NpmSpecifier.mk.injEq, Option.some.injEq] at h2
    obtain ⟨hname, hrange, hpath⟩ := h2
    have hrest : rest ≠ [] ∧ p = joinSep '/' rest := by
      by_cases he : rest.isEmpty
      · rw [if_pos he] at hpath
        exact absurd hpath (by simp)
      · rw [if_neg he] at hpath
        simp only [Option.some.injEq] at hpath
        exact ⟨by simpa [List.isEmpty_iff] using he, hpath.symm⟩
    have hdecomp := jsIndexOfFromOne_decomp '@' nr i hidx
    have hrecon := splitNameRange_reconstruct s nr rest hsplit hrest.1
    have hfmt : formatNpmSpecifier ⟨n, some r, some p⟩ = n ++ ('@' :: r) ++ ('/' :: p) := by
      unfold formatNpmSpecifier
      cases hrc : r with
      | nil => exact absurd hrc hr
      | cons a b =>
        cases hpc : p with
        | nil => exact absurd hpc hp
        | cons c d => simp
    rw [hfmt, ← hname, ← hrange, hrest.2]
    calc nr.take i ++ ('@' :: nr.drop (i + 1)) ++ ('/' :: joinSep '/' rest)
        = (nr.take i ++ '@' :: nr.drop (i + 1)) ++ '/' :: joinSep '/' rest := by
          simp [List.append_assoc]
      _ = nr ++ '/' :: joinSep '/' rest := by rw [hdecomp]
      _ = s := hrecon

theorem jsSplit_eq_single (sep : Char) (s : JStr) (h : sep ∉ s) : jsSplit sep s = [s] := by
  induction s with
  | nil => rfl
  | cons c r ih =>
    simp only [jsSplit]
    have hc : ¬c = sep := by
      intro e
      exact h (e ▸ List.mem_cons_self c r)
    rw [if_neg hc, ih (fun m => h (List.mem_cons_of_mem c m))]

/-- For a plain input (not scoped, no slash, no `@` past the first
character), parsing yields the whole input as the name with range and path
absent. -/
theorem parseNpmSpecifier_plain (s : JStr) (h1 : s.head? ≠ some '@') (h2 : '/' ∉ s)
    (h3 : ∀ c ∈ s.tail, c ≠ '@') : parseNpmSpecifier s = ⟨s, none, none⟩ := by
  have hidx : jsIndexOfFromOne '@' s = none := by
    cases s with
    | nil => rfl
    | cons a t =>
      simp only [jsIndexOfFromOne, Option.map_eq_none']
      rw [List.findIdx?_eq_none_iff]
      intro x hx
      simpa using h3 x hx
  have hsplit : splitNameRange s (jsSplit '/' s) = (s, []) := by
    rw [jsSplit_eq_single '/' s h2]
    unfold splitNameRange
    rw [if_neg h1]
  unfold parseNpmSpecifier
  rw [hsplit]
  unfold mkNpmSpecifier
  rw [hidx]
  rfl

/-- For a scoped input with no slash and no `@` past the first character,
the undefined second `parts.shift()!` joins as the empty string, so parsing
yields the input with `/` appended as the name, with range and path
absent. -/
theorem parseNpmSpecifier_scoped_plain (s : JStr) (h1 : s.head? = some '@') (h2 : '/' ∉ s)
    (h3 : ∀ c ∈ s.tail, c ≠ '@') : parseNpmSpecifier s = ⟨s ++ ['/'], none, none⟩ := by
  have hidx : jsIndexOfFromOne '@' (s ++ ['/']) = none := by
    cases s with
    | nil => simp at h1
    | cons a t =>
      simp only [List.cons_append, jsIndexOfFromOne, Option.map_eq_none']
      rw [List.findIdx?_eq_none_iff]
      intro x hx
      rcases List.mem_append.mp hx with hx' | hx'
      · simpa using h3 x hx'
      · simp only [List.mem_singleton] at hx'
        subst hx'
        decide
  have hsplit : splitNameRange s (jsSplit '/' s) = (s ++ ['/'], []) := by
    rw [jsSplit_eq_single '/' s h2]
    unfold splitNameRange
    rw [if_pos h1]
  unfold parseNpmSpecifier
  rw [hsplit]
  unfold mkNpmSpecifier
  rw [hidx]
  rfl

/-! Lemmas for the rewrite claim: the single-pass splice agrees with the
per-literal range replacement. -/

theorem rewriteEdits_cons (resolve : JStr → JStr) (l : StringLit) (ls : List StringLit) :
    rewriteEdits resolve (l :: ls)
      = if resolve l.value = l.value then rewriteEdits resolve ls
        else ⟨l.start, l.stop, jsonStringify (resolve l.value)⟩ :: rewriteEdits resolve ls := rfl

theorem specRewrite_cons (input : JStr) (resolve : JStr → JStr) (l : StringLit)
    (ls : List StringLit) :
    specRewrite input resolve (l :: ls)
      = if resolve l.value = l.value then specRewrite input resolve ls
        else replaceRange (specRewrite input resolve ls) l.start l.stop
          (jsonStringify (resolve l.value)) := rfl

theorem applyEditsFrom_cons_eq (input : JStr) (pos : Nat) (e : Edit) (es : List Edit)
    (h : pos ≤ e.start) :
    input.take pos ++ applyEditsFrom input pos (e :: es)
      = input.take e.start ++ (e.insert ++ applyEditsFrom input e.stop es) := by
  have h2 : input.take pos ++ (input.drop pos).take (e.start - pos) = input.take e.start := by
    rw [← List.take_add]
    congr 1
    omega
  calc input.take pos ++ ((input.drop pos).take (e.start - pos) ++ e.insert ++
          applyEditsFrom input e.stop es)
      = (input.take pos ++ (input.drop pos).take (e.start - pos)) ++
          (e.insert ++ applyEditsFrom input e.stop es) := by
        simp [List.append_assoc]
    _ = input.take e.start ++ (e.insert ++ applyEditsFrom input e.stop es) := by rw [h2]

theorem rewriteEdits_head_start (resolve : JStr → JStr) :
    ∀ (ls : List StringLit) (len pos : Nat), litsWF len pos ls = true →
    ∀ e es, rewriteEdits resolve ls = e :: es → pos ≤ e.start := by
  intro ls
  induction ls with
  | nil => intro len pos _ e es h; simp [rewriteEdits] at h
  | cons l ls ih =>
    intro len pos hwf e es h
    simp only [litsWF, Bool.and_eq_true, decide_eq_true_eq] at hwf
    obtain ⟨⟨⟨h1, h2⟩, h3⟩, h4⟩ := hwf
    rw [rewriteEdits_cons] at h
    by_cases hres : resolve l.value = l.value
    · rw [if_pos hres] at h
      have := ih len l.stop h4 e es h
      omega
    · rw [if_neg hres] at h
      cases h
      exact h1

theorem specRewrite_eq_applyEdits (input : JStr) (resolve : JStr → JStr) :
    ∀ (ls : List StringLit) (pos : Nat), litsWF input.length pos ls = true →
    specRewrite input resolve ls
      = input.take pos ++ applyEditsFrom input pos (rewriteEdits resolve ls) := by
  intro ls
  induction ls with
  | nil => intro pos _; simp [specRewrite, rewriteEdits, applyEditsFrom]
  | cons l ls ih =>
    intro pos hwf
    have hwf' := hwf
    simp only [litsWF, Bool.and_eq_true, decide_eq_true_eq] at hwf'
    obtain ⟨⟨⟨h1, h2⟩, h3⟩, h4⟩ := hwf'
    have IH := ih l.stop h4
    rw [specRewrite_cons, rewriteEdits_cons]
    by_cases hres : resolve l.value = l.value
    · rw [if_pos hres, if_pos hres, IH]
      rcases hE : rewriteEdits resolve ls with _ | ⟨e, es⟩
      · show input.take l.stop ++ input.drop l.stop = input.take pos ++ input.drop pos
        simp
      · have hstop := rewriteEdits_head_start resolve ls input.length l.stop h4 e es hE
        rw [applyEditsFrom_cons_eq input l.stop e es hstop,
          applyEditsFrom_cons_eq input pos e es (by omega)]
    · rw [if_neg hres, if_neg hres,
        applyEditsFrom_cons_eq input pos ⟨l.start, l.stop, jsonStringify (resolve l.value)⟩
          (rewriteEdits resolve ls) h1]
      dsimp only
      rw [IH]
      unfold replaceRange
      have hlen : (input.take l.stop).length = l.stop := by
        rw [List.length_take]
        omega
      rw [List.append_assoc]
      congr 1
      · rw [List.take_append_of_le_length (by rw [hlen]; exact h2), List.take_take]
        congr 1
        omega
      · congr 1
        rw [List.drop_left' hlen]

/-! Lemmas for the version-resolution tiers, the cache hit path, and the
dependency set. -/

theorem find?_first {α : Type} (p : α → Bool) (pre : List α) (v : α) (post : List α)
    (hpre : ∀ u ∈ pre, p u = false) (hv : p v = true) :
    (pre ++ v :: post).find? p = some v := by
  induction pre with
  | nil => simp [hv]
  | cons a rest ih =>
    have ha : p a = false := hpre a (List.mem_cons_self a rest)
    rw [List.cons_append, List.find?_cons_of_neg _ (by simp [ha])]
    exact ih fun u hu => hpre u (List.mem_cons_of_mem a hu)

theorem jsRange_some_of_ne_nil (r : JStr) (h : r ≠ []) : jsRange (some r) = some r := by
  cases r with
  | nil => exact absurd rfl h
  | cons a b => rfl

theorem isExactVersion_ne_nil (r : JStr) (h : isExactVersion r = true) : r ≠ [] := by
  intro he
  subst he
  simp [isExactVersion, chompDigits] at h

theorem jsRange_eq_some (o : Option JStr) (v : JStr) (h : jsRange o = some v) : o = some v := by
  cases o with
  | none => simp [jsRange] at h
  | some x =>
    cases x with
    | nil => simp [jsRange] at h
    | cons a b => simpa [jsRange] using h

theorem St_with_versionCache_self (st : St) (c : List (JStr × List JStr))
    (h : st.versionCache = some c) : { st with versionCache := some c } = st := by
  cases st
  simp_all

/-- Tier 1 of `resolveNpmVersion`: an exact version range is returned
unchanged, with the state untouched (in particular the version index is not
initialized) and no network request. -/
theorem resolveNpmVersion_exact (env : Env) (root name r : JStr) (pth : Option JStr) (st : St)
    (h : isExactVersion r = true) :
    resolveNpmVersion env root ⟨name, some r, pth⟩ st = (.ok r, st, 0) := by
  unfold resolveNpmVersion
  rw [show (⟨name, some r, pth⟩ : NpmSpecifier).range = some r from rfl,
    jsRange_some_of_ne_nil r (isExactVersion_ne_nil r h)]
  simp [h]

/-- Tier 2: when the index holds versions for the name and `v` is the first
entry satisfying the range, `v` is returned with no network request and the
state unchanged. -/
theorem resolveNpmVersionCont_cached (env : Env) (root name : JStr) (range : Option JStr)
    (st : St) (c : List (JStr × List JStr)) (pre : List JStr) (v : JStr) (post : List JStr)
    (hvc : st.versionCache = some c)
    (hlk : lookupStr c name = some (pre ++ v :: post))
    (hpre : ∀ u ∈ pre, satisfiesRange env range u = false)
    (hv : satisfiesRange env range v = true) :
    resolveNpmVersionCont env root name range st = (.ok v, st, 0) := by
  unfold resolveNpmVersionCont
  rw [hvc]
  simp only [hlk, find?_first (satisfiesRange env range) pre v post hpre hv]
  rw [St_with_versionCache_self st c hvc]

/-- Tier 3: when no cached version satisfies and no identical lookup is in
flight, exactly one request to the metadata endpoint is made. -/
theorem resolveNpmVersionCont_remote_count (env : Env) (root name : JStr)
    (range : Option JStr) (st : St) (c : List (JStr × List JStr))
    (hvc : st.versionCache = some c)
    (hnm : ∀ vs, lookupStr c name = some vs → ∀ u ∈ vs, satisfiesRange env range u = false)
    (hreg : lookupStr st.npmVersionRequests (versionResolveUrl name range) = none) :
    (resolveNpmVersionCont env root name range st).2.2 = 1 := by
  unfold resolveNpmVersionCont
  rw [hvc]
  have hfound : (match lookupStr c name with
      | some vs => vs.find? (satisfiesRange env range)
      | none => none) = (none : Option JStr) := by
    cases hlk : lookupStr c name with
    | none => rfl
    | some vs =>
      simp only [List.find?_eq_none]
      intro x hx
      simp [hnm vs hlk x hx]
  simp only [hfound]
  simp only [show ({ st with versionCache := some c } : St).npmVersionRequests
      = st.npmVersionRequests from rfl, hreg]
  cases env.remote (versionResolveUrl name range) with
  | notOk => rfl
  | result vOpt =>
    cases hjr : jsRange vOpt with
    | none => simp [hjr]
    | some v => simp [hjr]

/-- Any version successfully produced by `resolveNpmVersionCont` is exact,
provided the version index, the in-flight registry, and the metadata
endpoint only supply exact versions. -/
theorem resolveNpmVersionCont_ok_exact (env : Env) (root name : JStr) (range : Option JStr)
    (st : St)
    (hcs : ∀ c, st.versionCache = some c → exactCache c)
    (hini : exactCache env.initCache)
    (hreg : ∀ href v, lookupStr st.npmVersionRequests href = some (.ok v) →
      isExactVersion v = true)
    (hrem : ∀ href v, env.remote href = .result (some v) → isExactVersion v = true) :
    ∀ v st' n, resolveNpmVersionCont env root name range st = (.ok v, st', n) →
      isExactVersion v = true := by
  intro v st' n h
  unfold resolveNpmVersionCont at h
  dsimp only at h
  have hc : exactCache (match st.versionCache with
      | some c => c
      | none => env.initCache) := by
    cases hvc : st.versionCache with
    | none => simpa [hvc] using hini
    | some c => simpa [hvc] using hcs c hvc
  set cache := (match st.versionCache with
    | some c => c
    | none => env.initCache) with hcache
  rcases hlk : lookupStr cache name with _ | vs
  · rw [hlk] at h
    simp only at h
    rcases hro : lookupStr st.npmVersionRequests (versionResolveUrl name range) with _ | outcome
    · rw [hro] at h
      simp only at h
      cases hrm : env.remote (versionResolveUrl name range) with
      | notOk => rw [hrm] at h; cases h
      | result vOpt =>
        rw [hrm] at h
        dsimp only at h
        cases hjr : jsRange vOpt with
        | none => rw [hjr] at h; cases h
        | some v0 =>
          rw [hjr] at h
          cases h
          exact hrem _ v (by rw [hrm, jsRange_eq_some vOpt v hjr])
    · rw [hro] at h
      cases h
      exact hreg _ v hro
  · rw [hlk] at h
    simp only at h
    rcases hfd : vs.find? (satisfiesRange env range) with _ | v0
    · rw [hfd] at h
      simp only at h
      rcases hro : lookupStr st.npmVersionRequests (versionResolveUrl name range) with _ | outcome
      · rw [hro] at h
        simp only at h
        cases hrm : env.remote (versionResolveUrl name range) with
        | notOk => rw [hrm] at h; cases h
        | result vOpt =>
          rw [hrm] at h
          dsimp only at h
          cases hjr : jsRange vOpt with
          | none => rw [hjr] at h; cases h
          | some v0 =>
            rw [hjr] at h
            cases h
            exact hrem _ v (by rw [hrm, jsRange_eq_some vOpt v hjr])
      · rw [hro] at h
        cases h
        exact hreg _ v hro
    · rw [hfd] at h
      cases h
      exact hc name vs hlk v (List.mem_of_find?_eq_some hfd)

/-- Any version successfully produced by `resolveNpmVersion` is exact,
under the same oracle hypotheses. -/
theorem resolveNpmVersion_ok_exact (env : Env) (root : JStr) (spec : NpmSpecifier) (st : St)
    (hcs : ∀ c, st.versionCache = some c → exactCache c)
    (hini : exactCache env.initCache)
    (hreg : ∀ href v, lookupStr st.npmVersionRequests href = some (.ok v) →
      isExactVersion v = true)
    (hrem : ∀ href v, env.remote href = .result (some v) → isExactVersion v = true) :
    ∀ v st' n, resolveNpmVersion env root spec st = (.ok v, st', n) →
      isExactVersion v = true := by
  intro v st' n h
  unfold resolveNpmVersion at h
  cases hjr : jsRange spec.range with
  | none =>
    rw [hjr] at h
    exact resolveNpmVersionCont_ok_exact env root spec.name none st hcs hini hreg hrem v st' n h
  | some r =>
    rw [hjr] at h
    dsimp only at h
    by_cases hex : isExactVersion r = true
    · rw [if_pos hex] at h
      cases h
      exact hex
    · rw [if_neg hex] at h
      exact resolveNpmVersionCont_ok_exact env root spec.name (some r) st hcs hini hreg hrem
        v st' n h

/-- Routing: a defined, nonempty, non-exact range falls through to the
scan-and-lookup tail. -/
theorem resolveNpmVersion_route (env : Env) (root name r : JStr) (pth : Option JStr) (st : St)
    (hne : r ≠ []) (hnex : isExactVersion r = false) :
    resolveNpmVersion env root ⟨name, some r, pth⟩ st
      = resolveNpmVersionCont env root name (some r) st := by
  unfold resolveNpmVersion
  rw [show (⟨name, some r, pth⟩ : NpmSpecifier).range = some r from rfl,
    jsRange_some_of_ne_nil r hne]
  dsimp only
  rw [if_neg (by simp [hnex])]

theorem resolveNpmVersion_route_none (env : Env) (root name : JStr) (pth : Option JStr)
    (st : St) :
    resolveNpmVersion env root ⟨name, none, pth⟩ st
      = resolveNpmVersionCont env root name none st := rfl

theorem mem_jsSetAdd (l : List JStr) (x v : JStr) (h : v ∈ jsSetAdd l x) : v ∈ l ∨ v = x := by
  unfold jsSetAdd at h
  by_cases hc : l.contains x
  · rw [if_pos hc] at h
    exact .inl h
  · rw [if_neg hc] at h
    rcases List.mem_append.mp h with h' | h'
    · exact .inl h'
    · exact .inr (by simpa using h')

theorem mem_findImportSourceStep (st : St) (root name : JStr) (acc : List JStr) (w v : JStr)
    (h : v ∈ findImportSourceStep st root name acc w) :
    v ∈ acc ∨ (v = w ∧ (parseNpmSpecifier (w.drop 5)).name ≠ name) := by
  unfold findImportSourceStep at h
  split at h
  · split at h
    · exact .inl h
    · split at h
      · exact .inl h
      · rcases mem_jsSetAdd acc w v h with h' | h'
        · exact .inl h'
        · rename_i hself _
          exact .inr ⟨h', hself⟩
  · exact .inl h

/-- A literal whose parsed package name equals the module's own name is
never in the dependency set. -/
theorem findImportSources_no_self (st : St) (root name : JStr) (values : List JStr) (v : JStr)
    (h : (parseNpmSpecifier (v.drop 5)).name = name) :
    v ∉ findImportSources st root name values := by
  suffices H : ∀ acc : List JStr, v ∉ acc →
      v ∉ values.foldl (findImportSourceStep st root name) acc by
    exact H [] (by simp)
  induction values with
  | nil => intro acc hacc; simpa using hacc
  | cons w rest ih =>
    intro acc hacc
    simp only [List.foldl_cons]
    apply ih
    intro hmem
    rcases mem_findImportSourceStep st root name acc w v hmem with h' | ⟨he, hne⟩
    · exact hacc h'
    · subst he
      exact hne h

/-! The claims. -/

/-- Claim C1, amended: for every module source text that parses
successfully (represented by its well-formed import-source literal list),
`rewriteNpmImports` returns the input in which exactly the literals whose
resolution differs are replaced, each within its own source range, by the
JSON-quoted resolved value, with every byte outside the replaced ranges
unchanged (`specRewrite` is that per-range description), except that the
first line beginning with `//# sourceMappingURL=` — anywhere in the file,
not only a trailing one — is stripped after all replacements. -/
theorem C1_rewrite_isolation (input : JStr) (lits : List StringLit) (resolve : JStr → JStr)
    (hwf : litsWF input.length 0 lits = true) :
    rewriteNpmImports input lits resolve
      = stripSourceMapComment (specRewrite input resolve lits) := by
  unfold rewriteNpmImports
  rw [specRewrite_eq_applyEdits input resolve lits 0 hwf]
  rfl

/-- Witness for C1: a source with one CDN-prefixed import and one unrelated
string literal; only the matched literal's bytes change. -/
theorem C1_rewrite_isolation_witness :
    litsWF (("import \"/npm/d3@7/+esm\";const a=\"x\";".toList : JStr)).length 0
        [⟨7, 23, "/npm/d3@7/+esm".toList⟩] = true ∧
    rewriteNpmImports ("import \"/npm/d3@7/+esm\";const a=\"x\";".toList)
        [⟨7, 23, "/npm/d3@7/+esm".toList⟩]
        (fun s => if s = "/npm/d3@7/+esm".toList then "../d3@7.8.5/+esm.js".toList else s)
      = "import \"../d3@7.8.5/+esm.js\";const a=\"x\";".toList :=
  ⟨by decide, (C1_rewrite_isolation _ _ _ (by decide)).trans (by decide)⟩

/-- Counterexample to C1 as stated: the source-map strip is not restricted
to a trailing line. Here the `//# sourceMappingURL=` line is the first of
two lines (the trailing line is `const a=1;`), there are no import-source
literals and the resolver is the identity, so the claim as stated requires
the output to equal the input; the code strips the first matching line
anywhere. -/
theorem C1_counterexample :
    rewriteNpmImports ("//# sourceMappingURL=a.js.map\nconst a=1;".toList) [] (fun s => s)
        = "const a=1;".toList ∧
    ("//# sourceMappingURL=a.js.map\nconst a=1;".toList : JStr) ≠ "const a=1;".toList := by
  decide

/-- Claim C2, amended: parsing and formatting are exact inverses whenever
the parse yields all three fields present and nonempty. (A parsed range or
path can be present but empty, and `formatNpmSpecifier` drops empty
fields.) -/
theorem C2_roundtrip (s n r p : JStr)
    (h : parseNpmSpecifier s = ⟨n, some r, some p⟩) (hr : r ≠ []) (hp : p ≠ []) :
    formatNpmSpecifier (parseNpmSpecifier s) = s :=
  format_parse_of_nonempty s n r p h hr hp

/-- Witness for C2 at the specification's own example specifier. -/
theorem C2_roundtrip_witness :
    formatNpmSpecifier (parseNpmSpecifier ("@scope/pkg@^1.2.3/dist/x.js".toList))
      = "@scope/pkg@^1.2.3/dist/x.js".toList :=
  C2_roundtrip ("@scope/pkg@^1.2.3/dist/x.js".toList) ("@scope/pkg".toList)
    ("^1.2.3".toList) ("dist/x.js".toList) (by decide) (by decide) (by decide)

/-- Counterexample to C2 as stated: on `a@/p` the parse yields all three
fields (range is present but empty), yet formatting gives `a/p`, not the
input. -/
theorem C2_counterexample :
    parseNpmSpecifier ("a@/p".toList) = ⟨"a".toList, some [], some ("p".toList)⟩ ∧
    formatNpmSpecifier (parseNpmSpecifier ("a@/p".toList)) ≠ "a@/p".toList := by
  decide

/-- Claim C3: the three resolution tiers of `resolveNpmVersion`, in order:
(1) an exact version range is returned unchanged with the state untouched
(no version-index initialization or scan) and no network request; (2) when
the index has entries for the name, the first entry (in the stored
descending order) satisfying the range — or the first entry outright when
the range is absent — is returned with no network request and the state
unchanged; (3) when no cached version satisfies and no identical lookup is
in flight, exactly one request to the metadata endpoint is issued. The
third component of the result counts outbound network requests. -/
theorem C3_version_tiers :
    (∀ (env : Env) (root name r : JStr) (pth : Option JStr) (st : St),
      isExactVersion r = true →
      resolveNpmVersion env root ⟨name, some r, pth⟩ st = (.ok r, st, 0)) ∧
    (∀ (env : Env) (root name r : JStr) (pth : Option JStr) (st : St)
        (c : List (JStr × List JStr)) (pre : List JStr) (v : JStr) (post : List JStr),
      r ≠ [] → isExactVersion r = false → st.versionCache = some c →
      lookupStr c name = some (pre ++ v :: post) →
      (∀ u ∈ pre, env.satisfies u r = false) → env.satisfies v r = true →
      resolveNpmVersion env root ⟨name, some r, pth⟩ st = (.ok v, st, 0)) ∧
    (∀ (env : Env) (root name : JStr) (pth : Option JStr) (st : St)
        (c : List (JStr × List JStr)) (v : JStr) (post : List JStr),
      st.versionCache = some c → lookupStr c name = some (v :: post) →
      resolveNpmVersion env root ⟨name, none, pth⟩ st = (.ok v, st, 0)) ∧
    (∀ (env : Env) (root name r : JStr) (pth : Option JStr) (st : St)
        (c : List (JStr × List JStr)),
      r ≠ [] → isExactVersion r = false → st.versionCache = some c →
      (∀ vs, lookupStr c name = some vs → ∀ u ∈ vs, env.satisfies u r = false) →
      lookupStr st.npmVersionRequests (versionResolveUrl name (some r)) = none →
      (resolveNpmVersion env root ⟨name, some r, pth⟩ st).2.2 = 1) := by
  refine ⟨?_, ?_, ?_, ?_⟩
  · intro env root name r pth st h
    exact resolveNpmVersion_exact env root name r pth st h
  · intro env root name r pth st c pre v post hne hnex hvc hlk hpre hv
    rw [resolveNpmVersion_route env root name r pth st hne hnex]
    exact resolveNpmVersionCont_cached env root name (some r) st c pre v post hvc hlk hpre hv
  · intro env root name pth st c v post hvc hlk
    rw [resolveNpmVersion_route_none env root name pth st]
    exact resolveNpmVersionCont_cached env root name none st c [] v post hvc hlk
      (by intro u hu; cases hu) rfl
  · intro env root name r pth st c hne hnex hvc hnm hreg
    rw [resolveNpmVersion_route env root name r pth st hne hnex]
    exact resolveNpmVersionCont_remote_count env root name (some r) st c hvc hnm hreg

/-- Witness for C3: each tier at concrete inputs — an exact version with
the index uninitialized; a cached hit for a range and for an absent range;
a miss counting exactly one remote request. -/
theorem C3_version_tiers_witness :
    resolveNpmVersion trivialEnv [] ⟨"d3".toList, some ("1.2.3".toList), none⟩ emptySt
        = (.ok ("1.2.3".toList), emptySt, 0) ∧
    resolveNpmVersion satEnv [] ⟨"d3".toList, some ("^7.0.0".toList), none⟩ cachedSt
        = (.ok ("7.8.5".toList), cachedSt, 0) ∧
    resolveNpmVersion satEnv [] ⟨"d3".toList, none, none⟩ cachedSt
        = (.ok ("7.8.5".toList), cachedSt, 0) ∧
    (resolveNpmVersion trivialEnv [] ⟨"d3".toList, some ("^9.0.0".toList), none⟩
        cachedSt).2.2 = 1 :=
  ⟨C3_version_tiers.1 trivialEnv [] ("d3".toList) ("1.2.3".toList) none emptySt (by decide),
    C3_version_tiers.2.1 satEnv [] ("d3".toList) ("^7.0.0".toList) none cachedSt
      [("d3".toList, ["7.8.5".toList])] [] ("7.8.5".toList) [] (by decide) (by decide) rfl
      (by decide) (by intro u hu; cases hu) rfl,
    C3_version_tiers.2.2.1 satEnv [] ("d3".toList) none cachedSt
      [("d3".toList, ["7.8.5".toList])] ("7.8.5".toList) [] rfl (by decide),
    C3_version_tiers.2.2.2 trivialEnv [] ("d3".toList) ("^9.0.0".toList) none cachedSt
      [("d3".toList, ["7.8.5".toList])] (by decide) (by decide) rfl
      (fun vs hvs u hu => rfl) (by decide)⟩

/-- Claim C4: a dependency whose (consumer, dependency) pair is in the
fixed override table resolves with the override range regardless of the
manifest; and end to end, the module `arquero@5.0.0` importing
`/npm/apache-arrow@12/+esm` with a manifest declaring
`apache-arrow: "^11.0.0"` resolves through the override `latest`: the
metadata oracle answers the `latest` query with `16.1.0` and the `^11.0.0`
query with `11.3.0`, and the resolution map records the `16.1.0` path. -/
theorem C4_override_precedence :
    (∀ pkg : Pkg,
      dependencyRange ("arquero".toList) ("apache-arrow".toList) pkg
          = some ("latest".toList) ∧
        dependencyRange ("@uwdata/mosaic-core".toList) ("apache-arrow".toList) pkg
          = some ("latest".toList) ∧
        dependencyRange ("@duckdb/duckdb-wasm".toList) ("apache-arrow".toList) pkg
          = some ("latest".toList) ∧
        dependencyRange ("@uwdata/mosaic-core".toList) ("@duckdb/duckdb-wasm".toList) pkg
          = some ("1.28.0".toList)) ∧
    arqueroEnv.remote (versionResolveUrl ("apache-arrow".toList) (some ("^11.0.0".toList)))
        = .result (some ("11.3.0".toList)) ∧
    (getDependencyResolver 1 arqueroEnv scenarioRoot arqueroPath ("SRC".toList) arqueroSt).1
        = .ok [(arrowLit, "/_npm/apache-arrow@16.1.0/+esm.js".toList)] := by
  refine ⟨fun pkg => ⟨?_, ?_, ?_, ?_⟩, by decide, by decide⟩
  · unfold dependencyRange
    rw [if_pos (by decide)]
  · unfold dependencyRange
    rw [if_pos (by decide)]
  · unfold dependencyRange
    rw [if_pos (by decide)]
  · unfold dependencyRange
    rw [if_neg (by decide), if_pos (by decide)]

/-- Witness for C4, applying the override table to the scenario's
manifest. -/
theorem C4_override_precedence_witness :
    dependencyRange ("arquero".toList) ("apache-arrow".toList) arqueroPkg
      = some ("latest".toList) :=
  (C4_override_precedence.1 arqueroPkg).1

/-- Claim C5: for a `/_npm/` path whose cache file already exists,
`populateNpmCache` returns the deterministic on-disk path immediately, with
the state unchanged and zero network requests, and a repeated call returns
the same path again. -/
theorem C5_populate_idempotent (fuel : Nat) (env : Env) (root path : JStr) (st : St)
    (h1 : ("/_npm/".toList).isPrefixOf path = true)
    (h2 : existsSyncFile st (cacheFilePath root path) = true) :
    populateNpmCache fuel env root path st = (.ok (cacheFilePath root path), st, 0) ∧
    populateNpmCache fuel env root path ((populateNpmCache fuel env root path st).2.1)
      = (.ok (cacheFilePath root path), st, 0) := by
  have hmain : populateNpmCache fuel env root path st
      = (.ok (cacheFilePath root path), st, 0) := by
    unfold populateNpmCache
    rw [if_neg (by rw [h1]; simp)]
    dsimp only
    rw [if_pos h2]
  exact ⟨hmain, by rw [hmain]; exact hmain⟩

/-- Witness for C5 at a concrete state with the file on disk. -/
theorem C5_populate_idempotent_witness :
    populateNpmCache 0 trivialEnv scenarioRoot ("/_npm/d3@7.8.5/+esm.js".toList) populateSt
        = (.ok (cacheFilePath scenarioRoot ("/_npm/d3@7.8.5/+esm.js".toList)), populateSt, 0) ∧
    populateNpmCache 0 trivialEnv scenarioRoot ("/_npm/d3@7.8.5/+esm.js".toList)
        ((populateNpmCache 0 trivialEnv scenarioRoot ("/_npm/d3@7.8.5/+esm.js".toList)
          populateSt).2.1)
      = (.ok (cacheFilePath scenarioRoot ("/_npm/d3@7.8.5/+esm.js".toList)), populateSt, 0) :=
  C5_populate_idempotent 0 trivialEnv scenarioRoot ("/_npm/d3@7.8.5/+esm.js".toList)
    populateSt (by decide) (by decide)

/-- Claim C6, amended: every cache path produced by `resolveNpmImport`
carries an exact resolved version after the `@` — provided the version
index, the in-flight registry and the metadata endpoint supply only exact
versions. (As stated the claim also covered the resolver returned by
`getDependencyResolver` before relativization; its fallback prefix-swap
branch preserves the literal's own version text, which may be a range —
see the counterexample.) -/
theorem C6_resolveNpmImport_exact (env : Env) (root : JStr) (specifier : JStr) (st : St)
    (hcs : ∀ c, st.versionCache = some c → exactCache c)
    (hini : exactCache env.initCache)
    (hreg : ∀ href v, lookupStr st.npmVersionRequests href = some (.ok v) →
      isExactVersion v = true)
    (hrem : ∀ href v, env.remote href = .result (some v) → isExactVersion v = true) :
    ∀ out st' n, resolveNpmImport env root specifier st = (.ok out, st', n) →
      ∃ v, isExactVersion v = true ∧
        out = "/_npm/".toList ++ (parseNpmSpecifier specifier).name ++ '@' :: v ++ '/'
          :: jsReplaceEsmSuffix (resolveNpmImportPath (parseNpmSpecifier specifier)) := by
  intro out st' n h
  unfold resolveNpmImport at h
  dsimp only at h
  rcases hrv : resolveNpmVersion env root ⟨(parseNpmSpecifier specifier).name,
      resolveNpmImportRange (parseNpmSpecifier specifier), none⟩ st with ⟨res, st1, n1⟩
  rw [hrv] at h
  cases res with
  | ok v =>
    dsimp only at h
    cases h
    exact ⟨v, resolveNpmVersion_ok_exact env root _ st hcs hini hreg hrem v _ _ hrv, rfl⟩
  | error e => simp at h

/-- Witness for C6: resolving `d3` against an empty cache with a metadata
endpoint answering `9.9.9`. -/
theorem C6_resolveNpmImport_exact_witness :
    ∃ v, isExactVersion v = true ∧
      ("/_npm/d3@9.9.9/+esm.js".toList : JStr)
        = "/_npm/".toList ++ (parseNpmSpecifier ("d3".toList)).name ++ '@' :: v ++ '/'
          :: jsReplaceEsmSuffix (resolveNpmImportPath (parseNpmSpecifier ("d3".toList))) :=
  C6_resolveNpmImport_exact fixedVersionEnv scenarioRoot ("d3".toList) emptySt
    (fun c h => nomatch h) (fun nm vs h => nomatch h) (fun href v h => nomatch h)
    (fun href v h => by
      injection h with h1
      injection h1 with h2
      rw [← h2]
      decide)
    ("/_npm/d3@9.9.9/+esm.js".toList) resolvedSt 1 (by decide)

/-- Counterexample to C6 as stated: the resolver returned by
`getDependencyResolver` for a module whose manifest declares no range for
the dependency leaves the specifier out of the resolution map, and the
fallback prefix-swap (before relativization) yields a cache path whose
`@`-segment is the literal's own range `^2`, not an exact version. -/
theorem C6_counterexample :
    (getDependencyResolver 1 fooModEnv scenarioRoot fooModPath ("SRC".toList) fooModSt).1
        = .ok [] ∧
    dependencyResolverSubstitute [] fooLit = "/_npm/foo@^2/+esm.js".toList ∧
    (parseNpmSpecifier (resolveNpmSpecifier (dependencyResolverSubstitute [] fooLit))).range
        = some ("^2".toList) ∧
    isExactVersion ("^2".toList) = false := by
  decide

/-- Claim C8: a CDN-style literal whose parsed package name equals the
module's own package name (parsed from the module's cache path) is never
added to the module's dependency set. -/
theorem C8_no_self_dependency (st : St) (root path : JStr) (values : List JStr) (v : JStr)
    (h : (parseNpmSpecifier (v.drop 5)).name
      = (parseNpmSpecifier (resolveNpmSpecifier path)).name) :
    v ∉ findImportSources st root (parseNpmSpecifier (resolveNpmSpecifier path)).name values :=
  findImportSources_no_self st root _ values v h

/-- Witness for C8: `arquero` importing a CDN specifier of itself. -/
theorem C8_no_self_dependency_witness :
    ("/npm/arquero@5/+esm".toList : JStr) ∉ findImportSources arqueroSt scenarioRoot
      (parseNpmSpecifier (resolveNpmSpecifier arqueroPath)).name
      ["/npm/arquero@5/+esm".toList] :=
  C8_no_self_dependency arqueroSt scenarioRoot arqueroPath ["/npm/arquero@5/+esm".toList]
    ("/npm/arquero@5/+esm".toList) (by decide)

/-- Claim C9, amended: `parseNpmSpecifier` accepts every string (it is a
total function); an input that is not scoped, contains no slash and has no
`@` past the first character yields `{name: text}` with range and path
absent; a scoped input that contains no slash and has no `@` past the first
character yields `{name: text ++ "/"}` with range and path absent — the
name is the input with `/` appended, not the input text as the claim
stated. -/
theorem C9_parse_total :
    (∀ s : JStr, s.head? ≠ some '@' → '/' ∉ s → (∀ c ∈ s.tail, c ≠ '@') →
      parseNpmSpecifier s = ⟨s, none, none⟩) ∧
    (∀ s : JStr, s.head? = some '@' → '/' ∉ s → (∀ c ∈ s.tail, c ≠ '@') →
      parseNpmSpecifier s = ⟨s ++ ['/'], none, none⟩) :=
  ⟨parseNpmSpecifier_plain, parseNpmSpecifier_scoped_plain⟩

/-- Witness for C9: the specification's own plain example, and the
counterexample's scoped input through the amended scoped clause. -/
theorem C9_parse_total_witness :
    parseNpmSpecifier ("lodash".toList) = ⟨"lodash".toList, none, none⟩ ∧
    parseNpmSpecifier ("@a".toList) = ⟨"@a/".toList, none, none⟩ :=
  ⟨C9_parse_total.1 ("lodash".toList) (by decide) (by decide) (by decide),
    C9_parse_total.2 ("@a".toList) (by decide) (by decide) (by decide)⟩

/-- Counterexample to C9 as stated: the malformed scoped specifier `@a` is
accepted, but its best-effort result is `{name: "@a/"}`, not
`{name: "@a"}`. -/
theorem C9_counterexample :
    parseNpmSpecifier ("@a".toList) = ⟨"@a/".toList, none, none⟩ ∧
    ("@a/".toList : JStr) ≠ "@a".toList := by
  decide

/-- Claim C10: when listing the cache directory fails with `ENOENT`, the
version index initializes to empty instead of propagating the error, so a
fresh project proceeds to the remote tier; any other `readdir` error is
rethrown. -/
theorem C10_init_enoent (fs : FsEnv) (root : JStr) :
    (fs.readdir (npmCacheDir root) = .error .enoent →
      initNpmVersionCache fs root = .ok []) ∧
    (∀ msg, fs.readdir (npmCacheDir root) = .error (.otherErr msg) →
      initNpmVersionCache fs root = .error (.otherErr msg)) := by
  constructor
  · intro h
    unfold initNpmVersionCache
    rw [h]
    rfl
  · intro msg h
    unfold initNpmVersionCache
    rw [h]
    rfl

/-- Witness for C10 on concrete failing filesystems. -/
theorem C10_init_enoent_witness :
    initNpmVersionCache enoentFs [] = .ok [] ∧
    initNpmVersionCache failFs [] = .error (.otherErr ("EACCES".toList)) :=
  ⟨(C10_init_enoent enoentFs []).1 rfl, (C10_init_enoent failFs []).2 ("EACCES".toList) rfl⟩

end Npm
